import Mathlib

/-!
Verification of the trzsz-go wrapper (`src/trzsz/trzsz.go`, `src/trzsz/tsz.go`).

The Go code is shallowly embedded: byte buffers become `List Char` (one char
per byte), the long-lived pump loops become per-chunk step functions over an
explicit state, and the I/O performed by a run (terminal writes, protocol
frames) is returned as data.  External collaborators that are not part of the
two source files (the VT100 stripper, the drag-file detector, the GUI picker,
the version constant) are passed in as parameters.
-/

namespace Trzsz

/-! ## Basic list utilities (embedding Go `bytes` / `strings` helpers) -/

/-- `listStartsWith pat s` is true when `pat` is an initial segment of `s`
(Go `bytes.HasPrefix s pat`). -/
def listStartsWith : List Char → List Char → Bool
  | [], _ => true
  | _ :: _, [] => false
  | p :: ps, c :: cs => p == c && listStartsWith ps cs

/-- `containsSub s pat` is true when `pat` occurs as a contiguous substring of
`s` (Go `bytes.Contains s pat`). -/
def containsSub : List Char → List Char → Bool
  | [], pat => listStartsWith pat []
  | c :: cs, pat => listStartsWith pat (c :: cs) || containsSub cs pat

/-- First occurrence replacement, embedding Go `bytes.Replace(s, pat, rep, 1)`. -/
def bytesReplaceOnce (pat rep : List Char) : List Char → List Char
  | [] => if listStartsWith pat [] then rep else []
  | c :: cs =>
    if listStartsWith pat (c :: cs) then rep ++ (c :: cs).drop pat.length
    else c :: bytesReplaceOnce pat rep cs

/-- Maximal digit prefix of a list, and the remainder. -/
def takeDigits : List Char → List Char × List Char
  | [] => ([], [])
  | c :: cs =>
    if c.isDigit then
      let p := takeDigits cs
      (c :: p.1, p.2)
    else ([], c :: cs)

/-- True when the list does not begin with an ASCII digit. -/
def noLeadDigit : List Char → Bool
  | [] => true
  | c :: _ => !c.isDigit

/-- True when the list does not begin with a colon followed by a digit. -/
def noColonDigit : List Char → Bool
  | c :: d :: _ => !(c == ':' && d.isDigit)
  | _ => true

/-- Remove the exact literal `p` from the front of `s`, if present. -/
def dropLit : List Char → List Char → Option (List Char)
  | [], s => some s
  | _ :: _, [] => none
  | p :: ps, c :: cs => if p == c then dropLit ps cs else none

/-! ## Trigger detector (`trzsz.go` lines 49 and 94-104)

The Go code matches the RE2 regular expression
`::TRZSZ:TRANSFER:([SR]):(\d+\.\d+\.\d+)(:\d+)?` with leftmost-first (greedy)
semantics.  Because every quantified class in the pattern is disjoint from the
character that follows it, the greedy match is computed by a deterministic
scanner: at each start position try the literal, the direction byte, the
three maximal digit runs of the version and the optional greedy `:digits`
flag group. -/

/-- The fixed literal prefix of the trigger pattern. -/
def litTrigger : List Char := "::TRZSZ:TRANSFER:".toList

/-- Parse `\.\d+` greedily; return the remainder after the digits. -/
def parseDotDigits (s : List Char) : Option (List Char) :=
  match s with
  | [] => none
  | c :: r =>
    if c = '.' then
      let t := takeDigits r
      if t.1 = [] then none else some t.2
    else none

/-- Parse `\d+\.\d+\.\d+` greedily; return the remainder after the version. -/
def parseVersion (s : List Char) : Option (List Char) :=
  let t1 := takeDigits s
  if t1.1 = [] then none
  else (parseDotDigits t1.2).bind parseDotDigits

/-- Parse the optional greedy `(:\d+)?` group; return the captured group
(`[]` when it does not participate) and the remainder. -/
def parseFlag (s : List Char) : List Char × List Char :=
  match s with
  | [] => ([], [])
  | c :: rest =>
    if c = ':' then
      match takeDigits rest with
      | ([], _) => ([], c :: rest)
      | (d :: ds, r) => (c :: d :: ds, r)
    else ([], c :: rest)

/-- Try to match the whole trigger pattern at the head of `s`; on success
return the direction byte and the flag capture. -/
def parseTriggerAt (s : List Char) : Option (Char × List Char) :=
  match dropLit litTrigger s with
  | none => none
  | some t =>
    match t with
    | dir :: c :: r1 =>
      if c = ':' ∧ (dir = 'S' ∨ dir = 'R') then
        match parseVersion r1 with
        | none => none
        | some r5 => some (dir, (parseFlag r5).1)
      else none
    | _ => none

/-- Leftmost match of the trigger pattern (Go `regexp.FindSubmatch`). -/
def findTrigger : List Char → Option (Char × List Char)
  | [] => none
  | c :: cs =>
    match parseTriggerAt (c :: cs) with
    | some r => some r
    | none => findTrigger cs

/-- Embedding of `detectTrzsz` (`trzsz.go` lines 94-104): the `bytes.Contains`
pre-check, the regex match, and the `:1` flag comparison. -/
def detectTrzsz (output : List Char) : Option (Char × Bool) :=
  if containsSub output litTrigger then
    match findTrigger output with
    | none => none
    | some (dir, flag) => some (dir, flag == [':', '1'])
  else none

/-! ### Declarative characterisation of the regular expression -/

/-- A nonempty string of ASCII digits (`\d+`). -/
def DigitStr (l : List Char) : Prop := l ≠ [] ∧ ∀ c ∈ l, c.isDigit = true

/-- A valid capture of the optional `(:\d+)?` group: absent, or a colon
followed by a nonempty digit run. -/
def FlagStr (flag : List Char) : Prop :=
  flag = [] ∨ ∃ d, DigitStr d ∧ flag = ':' :: d

/-- `PlainMatch s pre dir v1 v2 v3 flag rest` says the regular expression
`::TRZSZ:TRANSFER:([SR]):(\d+\.\d+\.\d+)(:\d+)?` matches inside `s` with the
decomposition shown: `pre` before the match, direction capture `dir`, version
digit groups `v1.v2.v3`, optional flag capture `flag`, and `rest` after. -/
def PlainMatch (s pre : List Char) (dir : Char) (v1 v2 v3 flag rest : List Char) : Prop :=
  s = pre ++ litTrigger ++ dir :: ':' :: (v1 ++ '.' :: (v2 ++ '.' :: (v3 ++ flag ++ rest))) ∧
  (dir = 'S' ∨ dir = 'R') ∧ DigitStr v1 ∧ DigitStr v2 ∧ DigitStr v3 ∧ FlagStr flag

/-- The buffer contains some match of the trigger regular expression. -/
def ContainsTrigger (s : List Char) : Prop :=
  ∃ pre dir v1 v2 v3 flag rest, PlainMatch s pre dir v1 v2 v3 flag rest

/-- The actual match that Go's leftmost-first greedy matching produces:
a `PlainMatch` whose digit runs are maximal, whose optional group
participates whenever it can, and whose start position is leftmost. -/
def GoRegexMatch (s pre : List Char) (dir : Char) (v1 v2 v3 flag rest : List Char) : Prop :=
  PlainMatch s pre dir v1 v2 v3 flag rest ∧
  (flag = [] → noLeadDigit rest = true ∧ noColonDigit rest = true) ∧
  (flag ≠ [] → noLeadDigit rest = true) ∧
  (∀ pre2 dir2 w1 w2 w3 flag2 rest2, PlainMatch s pre2 dir2 w1 w2 w3 flag2 rest2 →
    pre.length ≤ pre2.length)

/-- `pat` occurs in `s` at index `i`. -/
def occursAt (s : List Char) (i : Nat) (pat : List Char) : Prop :=
  listStartsWith pat (s.drop i) = true

/-! ## Client stream bridge (`trzsz.go` lines 289-370)

The two pump loops are embedded one chunk at a time.  The mutable globals
`gTransfer`, `gInterrupting` and `gDragFiles` become a `ClientState`; the
writes a chunk causes (to the local terminal, to the session's receive
queue, to the child PTY) are returned as data. -/

/-- The wrapper globals relevant to one pump step: whether `gTransfer` is
non-nil, the `gInterrupting` flag, and whether `gDragFiles` is non-nil. -/
structure ClientState where
  transferActive : Bool
  interrupting : Bool
  dragPending : Bool
deriving DecidableEq

/-- Result of one `wrapOutput` loop iteration: bytes written to the local
terminal, bytes appended to the session's receive queue, and the new state. -/
structure OutputStepResult where
  toTerminal : List Char
  toQueue : List Char
  next : ClientState
deriving DecidableEq

/-- Embedding of one iteration of the `wrapOutput` loop (`trzsz.go`
lines 341-368) on a nonempty chunk `buf`.  `trimVT100` is the escape-sequence
stripper defined elsewhere in the repository, passed as a parameter;
`dragFile` is the command-line flag. -/
def wrapOutputStep (trimVT100 : List Char → List Char) (dragFile : Bool)
    (st : ClientState) (buf : List Char) : OutputStepResult :=
  if st.transferActive then ⟨[], buf, st⟩
  else
    match detectTrzsz buf with
    | some _ => ⟨bytesReplaceOnce "TRZSZ".toList "TRZSZGO".toList buf, [],
        { st with transferActive := true }⟩
    | none =>
      if st.interrupting then ⟨[], [], st⟩
      else if dragFile && st.dragPending then
        let out := ((trimVT100 buf).reverse.dropWhile (fun c => c == '\r' || c == '\n')).reverse
        if out = "trz".toList then ⟨"\r\n".toList, [], st⟩
        else if out = [] ∨ out = ['"'] then ⟨[], [], st⟩
        else ⟨buf, [], st⟩
      else ⟨buf, [], st⟩

/-- Result of one `wrapInput` loop iteration: bytes forwarded to the child
PTY's stdin, whether `stopTransferringFiles` was invoked, and the new state. -/
structure InputStepResult where
  toPty : List Char
  stopCalled : Bool
  next : ClientState
deriving DecidableEq

/-- Embedding of one iteration of the `wrapInput` loop (`trzsz.go`
lines 303-329) on a nonempty chunk `buf`.  `detectDrag` is the drag-file
heuristic defined elsewhere in the repository, passed as a parameter. -/
def wrapInputStep (detectDrag : List Char → Option (List String × Bool)) (dragFile : Bool)
    (st : ClientState) (buf : List Char) : InputStepResult :=
  if st.transferActive then
    ⟨[], (match buf with | [] => false | c :: _ => c == '\x03'), st⟩
  else if dragFile then
    match detectDrag buf with
    | some _ => ⟨[], false, { st with dragPending := true }⟩
    | none =>
      if st.dragPending then ⟨buf, false, { st with dragPending := false }⟩
      else ⟨buf, false, st⟩
  else ⟨buf, false, st⟩

/-! ## Signal broker (`trzsz.go` lines 372-390) -/

/-- The possible reactions of the wrapper to one interrupt signal. -/
inductive SigintAction
  | stopTransfer
  | forwardToChild
  | ignore
deriving DecidableEq

/-- Embedding of the body of the interrupt-signal loop in `handleSignal`
(`trzsz.go` lines 382-389): when `gTransfer` is non-nil its
`stopTransferringFiles` is invoked; otherwise the handler does nothing. -/
def handleSigint (transferActive : Bool) : SigintAction :=
  if transferActive then .stopTransfer else .ignore

/-! ## Configuration lookup (`trzsz.go` lines 66-92 and 106-123) -/

/-- Go `unicode.IsSpace`, the predicate used by `strings.TrimSpace`. -/
def goIsSpace (c : Char) : Bool :=
  c == ' ' || c == '\t' || c == '\n' || c.val == 11 || c.val == 12 || c == '\r' ||
  c.val == 0x85 || c.val == 0xA0 || c.val == 0x1680 ||
  (decide (0x2000 ≤ c.val) && decide (c.val ≤ 0x200A)) ||
  c.val == 0x2028 || c.val == 0x2029 || c.val == 0x202F || c.val == 0x205F || c.val == 0x3000

/-- Go `strings.TrimSpace`. -/
def trimSpace (l : List Char) : List Char :=
  ((l.dropWhile goIsSpace).reverse.dropWhile goIsSpace).reverse

/-- Split a line at its first `=`, embedding `strings.Index(line, "=")`
followed by `line[0:idx]` / `line[idx+1:]`; `none` when there is no `=`. -/
def splitFirstEq : List Char → Option (List Char × List Char)
  | [] => none
  | c :: rest =>
    if c = '=' then some ([], rest)
    else (splitFirstEq rest).map (fun p => (c :: p.1, p.2))

/-- The scanner loop of `getTrzszConfig` over the lines of `~/.trzsz.conf`:
on the first line whose trimmed key equals `name`, return its trimmed value,
or `none` when that value is empty; otherwise keep scanning. -/
def lookupConfLines (name : List Char) : List (List Char) → Option (List Char)
  | [] => none
  | line :: rest =>
    match splitFirstEq line with
    | none => lookupConfLines name rest
    | some kv =>
      if trimSpace kv.1 = name then
        if trimSpace kv.2 = [] then none else some (trimSpace kv.2)
      else lookupConfLines name rest

/-- A configuration line whose key — the text before the first `=` — equals
`name` after trimming. -/
def LineMatches (name line : List Char) : Prop :=
  ∃ k v, splitFirstEq line = some (k, v) ∧ trimSpace k = name

/-- Embedding of `getTrzszConfig` (`trzsz.go` lines 66-92).  `homeKnown` is
whether `os.UserHomeDir` succeeded and `confLines` the lines of
`~/.trzsz.conf` (`none` when the file cannot be opened). -/
def getTrzszConfig (name : List Char) (homeKnown : Bool)
    (confLines : Option (List (List Char))) : Option (List Char) :=
  if homeKnown then
    match confLines with
    | none => none
    | some lines => lookupConfLines name lines
  else none

/-- Embedding of `chooseDownloadPath` (`trzsz.go` lines 106-123): consult the
`DefaultDownloadPath` key; when unset invoke the GUI picker (`picker` models
the `zenity.SelectFile` result, `none` for error or cancel).  Returns whether
the picker was invoked, and the chosen path if any. -/
def chooseDownloadPath (homeKnown : Bool) (confLines : Option (List (List Char)))
    (picker : Option (List Char)) : Bool × Option (List Char) :=
  match getTrzszConfig "DefaultDownloadPath".toList homeKnown confLines with
  | some p => (false, some p)
  | none =>
    (true, match picker with
      | none => none
      | some p => if p = [] then none else some p)

/-! ## Server side: `tsz.go`

`sendFiles` and `TszMain` are embedded as pure functions from the results of
their external collaborators (argument parsing, path checks, tmux detection,
terminal raw mode, the peer's frames) to the exit code, the lines written to
stdout, and the protocol frames sent. -/

/-- Tmux detection result (collaborator `checkTmux`). -/
inductive TmuxMode
  | noTmux
  | tmuxNormalMode
  | tmuxControlMode
deriving DecidableEq

/-- The fields of the received ACT frame used by `sendFiles`. -/
structure TransferAction where
  confirm : Bool
  supportBinary : Bool
  supportDirectory : Bool
deriving DecidableEq

/-- The `tsz` command-line flags used by the embedded code paths. -/
structure TszArgs where
  binary : Bool
  directory : Bool
  overwrite : Bool
deriving DecidableEq

/-- One file to be sent, reduced to the attributes the embedded code paths
inspect (the spec's FileRecord display name and directory flag). -/
structure TrzszFile where
  displayName : String
  isDir : Bool
deriving DecidableEq

/-- Modelled from the spec: `check_duplicate_names(files)` fails when two
FileRecords would land at the same display name.  The function's body is not
under `src/`; only its caller in `TszMain` is.  Returns `true` when a
duplicate exists (the error case). -/
def checkDuplicateNames (files : List TrzszFile) : Bool :=
  match files with
  | [] => false
  | f :: rest => rest.any (fun g => g.displayName == f.displayName) || checkDuplicateNames rest

/-- Protocol output of the server, one constructor per frame kind that
`sendFiles` can emit through the transfer object. -/
inductive ServerEvent
  | exitFrame (msg : String)
  | configFrame (binary : Bool) (directory : Bool) (overwrite : Bool)
  | fileData (files : List TrzszFile)
deriving DecidableEq

/-- Embedding of `sendFiles` (`tsz.go` lines 49-86).  `action` is the result
of `transfer.recvAction` (`none` = receive error) and `exitMsgRecv` the result
of `transfer.recvExit`.  Returns the frames sent and the error returned. -/
def sendFiles (action : Option TransferAction) (files : List TrzszFile)
    (args : TszArgs) (exitMsgRecv : Option String) : List ServerEvent × Option String :=
  match action with
  | none => ([], some "recv action failed")
  | some act =>
    if act.confirm then
      let binary := if args.binary && !act.supportBinary then false else args.binary
      if args.directory && !act.supportDirectory then
        ([], some "The client doesn't support transfer directory")
      else
        match exitMsgRecv with
        | none => ([ServerEvent.configFrame binary args.directory args.overwrite,
                    ServerEvent.fileData files], some "recv exit failed")
        | some msg => ([ServerEvent.configFrame binary args.directory args.overwrite,
                       ServerEvent.fileData files, ServerEvent.exitFrame msg], none)
    else ([ServerEvent.exitFrame "Cancelled"], none)

/-- `(time.Now().UnixMilli() % 10e10) * 100` (`tsz.go` line 120); the Go
constant `10e10` has the integral value `10^11`. -/
def uniqueIdBase (ms : Nat) : Nat := (ms % 100000000000) * 100

/-- ASCII digit character for `d < 10`. -/
def digitChar (d : Nat) : Char := Char.ofNat (48 + d)

/-- Decimal digits of `n`, least significant first, by fuel recursion. -/
def decDigitsRev : Nat → Nat → List Nat
  | 0, _ => []
  | fuel + 1, n => if n = 0 then [] else n % 10 :: decDigitsRev fuel (n / 10)

/-- Decimal rendering of a natural number. -/
def natToDecimal (n : Nat) : List Char :=
  if n = 0 then ['0'] else ((decDigitsRev n n).reverse.map digitChar)

/-- Go `fmt.Sprintf("%013d", n)`: decimal rendering zero-padded on the left
to at least 13 characters. -/
def pad13 (n : Nat) : List Char :=
  List.replicate (13 - (natToDecimal n).length) '0' ++ natToDecimal n

/-- One line written to the local terminal by `TszMain`. -/
inductive StdoutLine
  | notice (s : String)
  | marker (s : String)
deriving DecidableEq

/-- Observable result of one `TszMain` run. -/
structure TszRun where
  exitCode : Int
  stdout : List StdoutLine
  frames : List ServerEvent
  errMsg : Option String
deriving DecidableEq

/-- Embedding of `TszMain` (`tsz.go` lines 89-162) after argument parsing.
`version` is the `kTrzszVersion` constant (defined elsewhere in the
repository); `pathsResult` the outcome of `checkPathsReadable` (`none` =
unreadable); `tmuxResult` the outcome of `checkTmux` (`none` = failure);
`isWin` the `isRunningOnWindows()` collaborator; `termColumns` the
`getTerminalColumns()` collaborator; `rawOk` whether `term.MakeRaw`
succeeded; `ms` the current unix milliseconds. -/
def tszMain (version : String) (pathsResult : Option (List TrzszFile)) (args : TszArgs)
    (tmuxResult : Option TmuxMode) (isWin : Bool) (termColumns : Int) (rawOk : Bool)
    (ms : Nat) (action : Option TransferAction) (exitMsgRecv : Option String) : TszRun :=
  match pathsResult with
  | none => ⟨-1, [], [], some "unreadable path"⟩
  | some files =>
    if args.overwrite && checkDuplicateNames files then ⟨-2, [], [], some "duplicate name"⟩
    else
      match tmuxResult with
      | none => ⟨-3, [], [], some "tmux check failed"⟩
      | some tmuxMode =>
        let s1 := if args.binary && tmuxMode == .tmuxControlMode then
            (false, [StdoutLine.notice
              "Binary download in tmux control mode is slower, auto switch to base64 mode.\n"])
          else (args.binary, [])
        let s2 := if s1.1 && isWin then
            (false, [StdoutLine.notice
              "Binary download on Windows is not supported, auto switch to base64 mode.\n"])
          else (s1.1, [])
        let s3 := if isWin then (uniqueIdBase ms + 10, ([] : List StdoutLine))
          else if tmuxMode == .tmuxNormalMode then
            (uniqueIdBase ms + 20,
             [StdoutLine.notice (if 0 < termColumns ∧ termColumns < 40 then
                "\n\n\x1b[2A\x1b[0J" else "\n\x1b[1A\x1b[0J")])
          else (uniqueIdBase ms, [])
        let markerStr := "\x1b7\x07::TRZSZ:TRANSFER:S:" ++ version ++ ":" ++
          String.mk (pad13 s3.1) ++ "\r\n"
        let outHead := s1.2 ++ s2.2 ++ s3.2 ++ [StdoutLine.marker markerStr]
        if rawOk then
          let r := sendFiles action files { args with binary := s2.1 } exitMsgRecv
          ⟨0, outHead, r.1, r.2⟩
        else ⟨-4, outHead, [], some "make raw failed"⟩

/-! ## Lemmas about the list utilities -/

theorem listStartsWith_append (p u : List Char) : listStartsWith p (p ++ u) = true := by
  induction p with
  | nil => rfl
  | cons c cs ih => simp [listStartsWith, ih]

theorem eq_append_of_listStartsWith :
    ∀ p s, listStartsWith p s = true → ∃ u, s = p ++ u
  | [], s, _ => ⟨s, rfl⟩
  | p :: ps, [], h => by simp [listStartsWith] at h
  | p :: ps, c :: cs, h => by
    simp only [listStartsWith, Bool.and_eq_true, beq_iff_eq] at h
    obtain ⟨rfl, h2⟩ := h
    obtain ⟨u, rfl⟩ := eq_append_of_listStartsWith ps cs h2
    exact ⟨u, rfl⟩

theorem listStartsWith_iff (p s : List Char) :
    listStartsWith p s = true ↔ ∃ u, s = p ++ u := by
  constructor
  · exact eq_append_of_listStartsWith p s
  · rintro ⟨u, rfl⟩
    exact listStartsWith_append p u

theorem containsSub_append (a p b : List Char) : containsSub (a ++ (p ++ b)) p = true := by
  induction a with
  | nil =>
    simp only [List.nil_append]
    cases hpb : p ++ b with
    | nil =>
      have hp : p = [] := by cases p <;> simp_all
      subst hp
      simp [containsSub, listStartsWith]
    | cons y ys =>
      have h1 : listStartsWith p (y :: ys) = true := hpb ▸ listStartsWith_append p b
      simp [containsSub, h1]
  | cons c cs ih => simp [List.cons_append, containsSub, ih]

theorem dropLit_eq_some :
    ∀ p s t : List Char, dropLit p s = some t ↔ s = p ++ t
  | [], s, t => by simp [dropLit, eq_comm]
  | p :: ps, [], t => by simp [dropLit]
  | p :: ps, c :: cs, t => by
    simp only [dropLit, List.cons_append]
    by_cases h : p = c
    · subst h
      simp [dropLit_eq_some ps cs t]
    · simp only [beq_eq_false_iff_ne, ne_eq, h, not_false_eq_true, if_neg, beq_iff_eq]
      constructor
      · intro hc; exact absurd hc (by simp)
      · intro hc
        injection hc with h1 _
        exact absurd h1.symm h

theorem takeDigits_spec : ∀ s : List Char,
    s = (takeDigits s).1 ++ (takeDigits s).2 ∧
      (∀ c ∈ (takeDigits s).1, c.isDigit = true) ∧ noLeadDigit (takeDigits s).2 = true
  | [] => by simp [takeDigits, noLeadDigit]
  | c :: cs => by
    by_cases h : c.isDigit
    · obtain ⟨h1, h2, h3⟩ := takeDigits_spec cs
      simp only [takeDigits, if_pos h]
      refine ⟨by simpa using h1, ?_, h3⟩
      intro x hx
      rcases List.mem_cons.mp hx with hx | hx
      · exact hx ▸ h
      · exact h2 x hx
    · simp [takeDigits, if_neg h, noLeadDigit, h]

theorem takeDigits_append :
    ∀ d r : List Char, (∀ c ∈ d, c.isDigit = true) → noLeadDigit r = true →
      takeDigits (d ++ r) = (d, r)
  | [], r, _, hr => by
    cases r with
    | nil => rfl
    | cons c cs =>
      simp only [noLeadDigit, Bool.not_eq_eq_eq_not, Bool.not_true] at hr
      simp [takeDigits, hr]
  | c :: d, r, hd, hr => by
    have hc : c.isDigit = true := hd c (by simp)
    have ih := takeDigits_append d r (fun x hx => hd x (by simp [hx])) hr
    simp [takeDigits, hc, ih]

/-! ## Soundness and completeness of the trigger scanner -/

theorem parseDotDigits_sound (s r : List Char) (h : parseDotDigits s = some r) :
    ∃ v, s = '.' :: (v ++ r) ∧ DigitStr v ∧ noLeadDigit r = true := by
  cases s with
  | nil => simp [parseDotDigits] at h
  | cons c rest =>
    simp only [parseDotDigits] at h
    by_cases hc : c = '.'
    · subst hc
      rw [if_pos rfl] at h
      obtain ⟨h1, h2, h3⟩ := takeDigits_spec rest
      by_cases h0 : (takeDigits rest).1 = []
      · simp [h0] at h
      · rw [if_neg h0] at h
        simp only [Option.some.injEq] at h
        subst h
        exact ⟨(takeDigits rest).1, by simpa using congrArg (List.cons '.') h1, ⟨h0, h2⟩, h3⟩
    · simp [hc] at h

theorem parseDotDigits_complete (v t : List Char) (hv : DigitStr v) :
    parseDotDigits ('.' :: (v ++ t)) = some (takeDigits t).2 := by
  obtain ⟨h1, h2, h3⟩ := takeDigits_spec t
  have hsplit : v ++ t = (v ++ (takeDigits t).1) ++ (takeDigits t).2 := by
    rw [List.append_assoc, ← h1]
  have htd : takeDigits (v ++ t) = (v ++ (takeDigits t).1, (takeDigits t).2) := by
    rw [hsplit]
    exact takeDigits_append _ _
      (fun c hc => (List.mem_append.mp hc).elim (hv.2 c) (h2 c)) h3
  have hne : v ++ (takeDigits t).1 ≠ [] := by
    cases hv' : v with
    | nil => exact absurd hv' hv.1
    | cons a as => simp
  simp [parseDotDigits, htd, hne]

theorem parseVersion_sound (s r5 : List Char) (h : parseVersion s = some r5) :
    ∃ v1 v2 v3, s = v1 ++ '.' :: (v2 ++ '.' :: (v3 ++ r5)) ∧
      DigitStr v1 ∧ DigitStr v2 ∧ DigitStr v3 ∧ noLeadDigit r5 = true := by
  simp only [parseVersion] at h
  by_cases h0 : (takeDigits s).1 = []
  · simp [h0] at h
  · rw [if_neg h0, Option.bind_eq_some] at h
    obtain ⟨r3, h13, h35⟩ := h
    obtain ⟨hs1, hs2, _⟩ := takeDigits_spec s
    obtain ⟨v2, hv2eq, hv2, _⟩ := parseDotDigits_sound _ _ h13
    obtain ⟨v3, hv3eq, hv3, hn5⟩ := parseDotDigits_sound _ _ h35
    refine ⟨(takeDigits s).1, v2, v3, ?_, ⟨h0, hs2⟩, hv2, hv3, hn5⟩
    rw [hv3eq] at hv2eq
    rw [hv2eq] at hs1
    exact hs1

theorem parseVersion_complete (v1 v2 v3 t : List Char)
    (h1 : DigitStr v1) (h2 : DigitStr v2) (h3 : DigitStr v3) :
    parseVersion (v1 ++ '.' :: (v2 ++ '.' :: (v3 ++ t))) = some (takeDigits t).2 := by
  have hdotDigit : ('.' : Char).isDigit = false := by decide
  have hdot : noLeadDigit ('.' :: (v2 ++ '.' :: (v3 ++ t))) = true := by
    simp [noLeadDigit, hdotDigit]
  have htd : takeDigits (v1 ++ '.' :: (v2 ++ '.' :: (v3 ++ t))) =
      (v1, '.' :: (v2 ++ '.' :: (v3 ++ t))) :=
    takeDigits_append _ _ h1.2 hdot
  have hmid : takeDigits ('.' :: (v3 ++ t)) = ([], '.' :: (v3 ++ t)) := by
    simp [takeDigits, hdotDigit]
  have hstep1 : parseDotDigits ('.' :: (v2 ++ '.' :: (v3 ++ t))) =
      some ('.' :: (v3 ++ t)) := by
    have := parseDotDigits_complete v2 ('.' :: (v3 ++ t)) h2
    rw [hmid] at this
    exact this
  have hstep2 : parseDotDigits ('.' :: (v3 ++ t)) = some (takeDigits t).2 :=
    parseDotDigits_complete v3 t h3
  simp [parseVersion, htd, h1.1, hstep1, hstep2]

theorem parseFlag_spec (s : List Char) :
    ((parseFlag s).1 = [] ∧ (parseFlag s).2 = s ∧ noColonDigit s = true) ∨
    (∃ d, DigitStr d ∧ (parseFlag s).1 = ':' :: d ∧
      s = ':' :: (d ++ (parseFlag s).2) ∧ noLeadDigit (parseFlag s).2 = true) := by
  cases s with
  | nil => exact Or.inl ⟨rfl, rfl, rfl⟩
  | cons c rest =>
    by_cases hc : c = ':'
    · subst hc
      obtain ⟨h1, h2, h3⟩ := takeDigits_spec rest
      rcases htd : takeDigits rest with ⟨d, r⟩
      rw [htd] at h1 h2 h3
      cases d with
      | nil =>
        left
        have hpf : parseFlag (':' :: rest) = ([], ':' :: rest) := by
          simp [parseFlag, htd]
        simp only [List.nil_append] at h1
        refine ⟨by simp [hpf], by simp [hpf], ?_⟩
        subst h1
        cases rest with
        | nil => rfl
        | cons x xs =>
          simp only [noLeadDigit] at h3
          simp [noColonDigit, h3]
      | cons a as =>
        right
        have hpf : parseFlag (':' :: rest) = (':' :: a :: as, r) := by
          simp [parseFlag, htd]
        refine ⟨a :: as, ⟨by simp, h2⟩, by simp [hpf], ?_, by simp [hpf, h3]⟩
        simp only [hpf]
        exact congrArg (List.cons ':') h1
    · left
      have hpf : parseFlag (c :: rest) = ([], c :: rest) := by simp [parseFlag, hc]
      refine ⟨by simp [hpf], by simp [hpf], ?_⟩
      cases rest with
      | nil => rfl
      | cons x xs => simp [noColonDigit, hc]

theorem parseTriggerAt_sound (s : List Char) (dir : Char) (flag : List Char)
    (h : parseTriggerAt s = some (dir, flag)) :
    ∃ v1 v2 v3 rest,
      s = litTrigger ++ dir :: ':' :: (v1 ++ '.' :: (v2 ++ '.' :: (v3 ++ flag ++ rest))) ∧
      (dir = 'S' ∨ dir = 'R') ∧ DigitStr v1 ∧ DigitStr v2 ∧ DigitStr v3 ∧ FlagStr flag ∧
      (flag = [] → noLeadDigit rest = true ∧ noColonDigit rest = true) ∧
      (flag ≠ [] → noLeadDigit rest = true) := by
  rcases hdl : dropLit litTrigger s with _ | t
  · have hnone : parseTriggerAt s = none := by rw [parseTriggerAt, hdl]
    rw [hnone] at h
    exact absurd h (by simp)
  · have hs : s = litTrigger ++ t := (dropLit_eq_some _ _ _).mp hdl
    cases t with
    | nil =>
      have hnone : parseTriggerAt s = none := by rw [parseTriggerAt, hdl]
      rw [hnone] at h
      exact absurd h (by simp)
    | cons d t2 =>
      cases t2 with
      | nil =>
        have hnone : parseTriggerAt s = none := by rw [parseTriggerAt, hdl]
        rw [hnone] at h
        exact absurd h (by simp)
      | cons c r1 =>
        have hred : parseTriggerAt s =
            if c = ':' ∧ (d = 'S' ∨ d = 'R') then
              match parseVersion r1 with
              | none => none
              | some r5 => some (d, (parseFlag r5).1)
            else none := by
          rw [parseTriggerAt, hdl]
        rw [hred] at h
        by_cases hcond : c = ':' ∧ (d = 'S' ∨ d = 'R')
        · rw [if_pos hcond] at h
          obtain ⟨hc, hdir⟩ := hcond
          subst hc
          rcases hpv : parseVersion r1 with _ | r5
          · rw [hpv] at h
            exact absurd h (by simp)
          · rw [hpv] at h
            simp only [Option.some.injEq, Prod.mk.injEq] at h
            obtain ⟨rfl, rfl⟩ := h
            obtain ⟨v1, v2, v3, hr1, hv1, hv2, hv3, hn5⟩ := parseVersion_sound r1 r5 hpv
            rcases parseFlag_spec r5 with ⟨hf1, hf2, hf3⟩ | ⟨fd, hfd, hf1, hf2, hf3⟩
            · refine ⟨v1, v2, v3, r5, ?_, hdir, hv1, hv2, hv3, Or.inl hf1, ?_, ?_⟩
              · rw [hs, hr1, hf1]
                simp
              · exact fun _ => ⟨hn5, hf3⟩
              · intro hne
                exact absurd hf1 hne
            · refine ⟨v1, v2, v3, (parseFlag r5).2, ?_, hdir, hv1, hv2, hv3,
                Or.inr ⟨fd, hfd, hf1⟩, ?_, fun _ => hf3⟩
              · rw [hs, hr1, hf1]
                conv_lhs => rw [hf2]
                simp
              · intro h0
                rw [hf1] at h0
                exact absurd h0 (by simp)
        · rw [if_neg hcond] at h
          exact absurd h (by simp)

theorem parseTriggerAt_complete (dir : Char) (v1 v2 v3 flag rest : List Char)
    (hdir : dir = 'S' ∨ dir = 'R') (h1 : DigitStr v1) (h2 : DigitStr v2) (h3 : DigitStr v3) :
    (parseTriggerAt (litTrigger ++
      dir :: ':' :: (v1 ++ '.' :: (v2 ++ '.' :: (v3 ++ flag ++ rest))))).isSome = true := by
  have hdl : dropLit litTrigger (litTrigger ++
      dir :: ':' :: (v1 ++ '.' :: (v2 ++ '.' :: (v3 ++ flag ++ rest)))) =
      some (dir :: ':' :: (v1 ++ '.' :: (v2 ++ '.' :: (v3 ++ flag ++ rest)))) :=
    (dropLit_eq_some _ _ _).mpr rfl
  have hpv := parseVersion_complete v1 v2 v3 (flag ++ rest) h1 h2 h3
  have hred : parseTriggerAt (litTrigger ++
      dir :: ':' :: (v1 ++ '.' :: (v2 ++ '.' :: (v3 ++ flag ++ rest)))) =
      if (':' : Char) = ':' ∧ (dir = 'S' ∨ dir = 'R') then
        match parseVersion (v1 ++ '.' :: (v2 ++ '.' :: (v3 ++ flag ++ rest))) with
        | none => none
        | some r5 => some (dir, (parseFlag r5).1)
      else none := by
    rw [parseTriggerAt, hdl]
  rw [hred, if_pos ⟨rfl, hdir⟩, List.append_assoc v3 flag rest, hpv]
  simp

theorem findTrigger_sound : ∀ (s : List Char) (r : Char × List Char),
    findTrigger s = some r →
    ∃ i, i ≤ s.length ∧ parseTriggerAt (s.drop i) = some r ∧
      ∀ j < i, parseTriggerAt (s.drop j) = none
  | [], r, h => by simp [findTrigger] at h
  | c :: cs, r, h => by
    rcases hp : parseTriggerAt (c :: cs) with _ | r0
    · rw [findTrigger, hp] at h
      obtain ⟨i, hi, hpi, hnone⟩ := findTrigger_sound cs r h
      refine ⟨i + 1, by simpa using Nat.succ_le_succ hi, by simpa using hpi, ?_⟩
      intro j hj
      cases j with
      | zero => simpa using hp
      | succ j' => simpa using hnone j' (Nat.lt_of_succ_lt_succ hj)
    · rw [findTrigger, hp] at h
      simp only [Option.some.injEq] at h
      subst h
      exact ⟨0, Nat.zero_le _, by simpa using hp, fun j hj => absurd hj (Nat.not_lt_zero j)⟩

theorem parseTriggerAt_nil : parseTriggerAt ([] : List Char) = none := rfl

theorem findTrigger_complete : ∀ (s : List Char) (i : Nat),
    (parseTriggerAt (s.drop i)).isSome = true → (findTrigger s).isSome = true
  | [], i, h => by
    rw [List.drop_nil, parseTriggerAt_nil] at h
    exact absurd h (by simp)
  | c :: cs, i, h => by
    cases i with
    | zero =>
      rw [findTrigger]
      rcases hp : parseTriggerAt (c :: cs) with _ | r0
      · rw [List.drop_zero, hp] at h
        exact absurd h (by simp)
      · simp
    | succ i' =>
      rw [findTrigger]
      rcases hp : parseTriggerAt (c :: cs) with _ | r0
      · simpa using findTrigger_complete cs i' (by simpa using h)
      · simp

theorem plainMatch_parse_isSome (s pre : List Char) (dir : Char) (v1 v2 v3 flag rest : List Char)
    (h : PlainMatch s pre dir v1 v2 v3 flag rest) :
    (parseTriggerAt (s.drop pre.length)).isSome = true := by
  obtain ⟨hs, hdir, h1, h2, h3, _⟩ := h
  have hdrop : s.drop pre.length =
      litTrigger ++ dir :: ':' :: (v1 ++ '.' :: (v2 ++ '.' :: (v3 ++ flag ++ rest))) := by
    rw [hs, List.append_assoc]
    exact List.drop_left pre _
  rw [hdrop]
  exact parseTriggerAt_complete dir v1 v2 v3 flag rest hdir h1 h2 h3

theorem containsSub_of_plainMatch (s pre : List Char) (dir : Char)
    (v1 v2 v3 flag rest : List Char) (h : PlainMatch s pre dir v1 v2 v3 flag rest) :
    containsSub s litTrigger = true := by
  rw [h.1, List.append_assoc]
  exact containsSub_append pre litTrigger _

theorem detectTrzsz_some_goMatch (s : List Char) (m : Char) (b : Bool)
    (hd : detectTrzsz s = some (m, b)) :
    ∃ pre v1 v2 v3 flag rest, GoRegexMatch s pre m v1 v2 v3 flag rest ∧
      (b = true ↔ flag = [':', '1']) := by
  unfold detectTrzsz at hd
  by_cases hc : containsSub s litTrigger = true
  · rw [if_pos hc] at hd
    rcases hf : findTrigger s with _ | df
    · rw [hf] at hd
      exact absurd hd (by simp)
    · rcases df with ⟨dir, flag⟩
      rw [hf] at hd
      simp only [Option.some.injEq, Prod.mk.injEq] at hd
      obtain ⟨rfl, rfl⟩ := hd
      obtain ⟨i, hi, hpi, hnone⟩ := findTrigger_sound s (dir, flag) hf
      obtain ⟨v1, v2, v3, rest, hdecomp, hdir, h1, h2, h3, hflag, hng1, hng2⟩ :=
        parseTriggerAt_sound _ dir flag hpi
      have hlen : (s.take i).length = i := by
        simp [List.length_take, Nat.min_eq_left hi]
      have hpm : PlainMatch s (s.take i) dir v1 v2 v3 flag rest := by
        refine ⟨?_, hdir, h1, h2, h3, hflag⟩
        conv_lhs => rw [(List.take_append_drop i s).symm]
        rw [hdecomp]
        simp [List.append_assoc]
      refine ⟨s.take i, v1, v2, v3, flag, rest, ⟨hpm, hng1, hng2, ?_⟩, by simp⟩
      intro pre2 dir2 w1 w2 w3 flag2 rest2 hpm2
      by_contra hlt
      push_neg at hlt
      rw [hlen] at hlt
      have hsome := plainMatch_parse_isSome s pre2 dir2 w1 w2 w3 flag2 rest2 hpm2
      rw [hnone pre2.length hlt] at hsome
      exact absurd hsome (by simp)
  · rw [if_neg hc] at hd
    exact absurd hd (by simp)

theorem detectTrzsz_isSome_iff (s : List Char) :
    (detectTrzsz s).isSome = true ↔ ContainsTrigger s := by
  constructor
  · intro h
    rcases hd : detectTrzsz s with _ | mb
    · rw [hd] at h
      exact absurd h (by simp)
    · rcases mb with ⟨m, b⟩
      obtain ⟨pre, v1, v2, v3, flag, rest, hgm, _⟩ := detectTrzsz_some_goMatch s m b hd
      exact ⟨pre, m, v1, v2, v3, flag, rest, hgm.1⟩
  · rintro ⟨pre, dir, v1, v2, v3, flag, rest, hpm⟩
    have hc : containsSub s litTrigger = true :=
      containsSub_of_plainMatch s pre dir v1 v2 v3 flag rest hpm
    have hparse := plainMatch_parse_isSome s pre dir v1 v2 v3 flag rest hpm
    have hfind : (findTrigger s).isSome = true := findTrigger_complete s pre.length hparse
    unfold detectTrzsz
    rw [if_pos hc]
    rcases hf : findTrigger s with _ | r
    · rw [hf] at hfind
      exact absurd hfind (by simp)
    · rcases r with ⟨d, f⟩
      simp

/-! ## Lemmas about first-occurrence replacement -/

theorem bytesReplaceOnce_at (pat rep : List Char) (hpat : pat ≠ []) :
    ∀ (s : List Char) (i : Nat), occursAt s i pat → (∀ j < i, ¬ occursAt s j pat) →
      bytesReplaceOnce pat rep s = s.take i ++ rep ++ s.drop (i + pat.length)
  | [], i, hocc, _ => by
    unfold occursAt at hocc
    rw [List.drop_nil] at hocc
    cases pat with
    | nil => exact absurd rfl hpat
    | cons p ps => simp [listStartsWith] at hocc
  | c :: cs, 0, hocc, _ => by
    unfold occursAt at hocc
    rw [List.drop_zero] at hocc
    simp [bytesReplaceOnce, hocc]
  | c :: cs, i + 1, hocc, hmin => by
    have h0 : listStartsWith pat (c :: cs) = false := by
      have h1 := hmin 0 (Nat.succ_pos i)
      unfold occursAt at h1
      rw [List.drop_zero] at h1
      simpa using h1
    have hocc' : occursAt cs i pat := by
      unfold occursAt at hocc ⊢
      simpa [List.drop_succ_cons] using hocc
    have hmin' : ∀ j < i, ¬ occursAt cs j pat := by
      intro j hj hcontra
      apply hmin (j + 1) (Nat.succ_lt_succ hj)
      unfold occursAt at hcontra ⊢
      simpa [List.drop_succ_cons] using hcontra
    have ih := bytesReplaceOnce_at pat rep hpat cs i hocc' hmin'
    have harith : i + 1 + pat.length = (i + pat.length) + 1 := by omega
    simp only [bytesReplaceOnce, h0, Bool.false_eq_true, if_neg]
    rw [harith, List.drop_succ_cons, List.take_succ_cons, ih]
    simp

theorem occursAt_marker (buf pre : List Char) (dir : Char) (v1 v2 v3 flag rest : List Char)
    (h : PlainMatch buf pre dir v1 v2 v3 flag rest) :
    occursAt buf (pre.length + 2) "TRZSZ".toList := by
  unfold occursAt
  have hsplit : buf = (pre ++ [':', ':']) ++
      ("TRZSZ:TRANSFER:".toList ++
        (dir :: ':' :: (v1 ++ '.' :: (v2 ++ '.' :: (v3 ++ flag ++ rest))))) := by
    rw [h.1]
    have hlit : litTrigger = [':', ':'] ++ "TRZSZ:TRANSFER:".toList := rfl
    rw [hlit]
    simp [List.append_assoc]
  have hlen2 : pre.length + 2 = (pre ++ [':', ':']).length := by simp
  rw [hsplit, hlen2, List.drop_left]
  have hpref : "TRZSZ:TRANSFER:".toList ++
      (dir :: ':' :: (v1 ++ '.' :: (v2 ++ '.' :: (v3 ++ flag ++ rest)))) =
      "TRZSZ".toList ++ (":TRANSFER:".toList ++
      (dir :: ':' :: (v1 ++ '.' :: (v2 ++ '.' :: (v3 ++ flag ++ rest))))) := rfl
  rw [hpref]
  exact listStartsWith_append "TRZSZ".toList _

/-! ## Lemmas about the configuration lookup -/

theorem lookupConfLines_of_no_match (name : List Char) :
    ∀ lines : List (List Char), (∀ line ∈ lines, ¬ LineMatches name line) →
      lookupConfLines name lines = none
  | [], _ => rfl
  | line :: rest, h => by
    have hline := h line (by simp)
    have hrest := lookupConfLines_of_no_match name rest (fun l hl => h l (by simp [hl]))
    rcases hsp : splitFirstEq line with _ | kv
    · simp [lookupConfLines, hsp, hrest]
    · rcases kv with ⟨k, v⟩
      have hk : ¬ trimSpace k = name := fun hc => hline ⟨k, v, hsp, hc⟩
      simp [lookupConfLines, hsp, hk, hrest]

theorem lookupConfLines_first (name : List Char) :
    ∀ (pre : List (List Char)) (line : List Char) (post : List (List Char)) (k v : List Char),
      (∀ l ∈ pre, ¬ LineMatches name l) → splitFirstEq line = some (k, v) →
      trimSpace k = name →
      lookupConfLines name (pre ++ line :: post) =
        (if trimSpace v = [] then none else some (trimSpace v))
  | [], line, post, k, v, _, hsp, hk => by
    by_cases hv : trimSpace v = []
    · simp [lookupConfLines, hsp, hk, hv]
    · simp [lookupConfLines, hsp, hk, hv]
  | l0 :: pre, line, post, k, v, hpre, hsp, hk => by
    have h0 := hpre l0 (by simp)
    have ih := lookupConfLines_first name pre line post k v
      (fun l hl => hpre l (by simp [hl])) hsp hk
    rcases hsp0 : splitFirstEq l0 with _ | kv0
    · simpa [lookupConfLines, hsp0] using ih
    · rcases kv0 with ⟨k0, v0⟩
      have hk0 : ¬ trimSpace k0 = name := fun hc => h0 ⟨k0, v0, hsp0, hc⟩
      simpa [lookupConfLines, hsp0, hk0] using ih

/-! ## Lemmas about the decimal rendering -/

theorem decDigitsRev_length : ∀ fuel n k : Nat, n < 10 ^ k → (decDigitsRev fuel n).length ≤ k
  | 0, n, k, _ => by simp [decDigitsRev]
  | fuel + 1, n, k, h => by
    by_cases h0 : n = 0
    · simp [decDigitsRev, h0]
    · rw [decDigitsRev, if_neg h0]
      have hk : k ≠ 0 := by
        rintro rfl
        rw [pow_zero] at h
        omega
      obtain ⟨k', rfl⟩ : ∃ k', k = k' + 1 := ⟨k - 1, by omega⟩
      have hdiv : n / 10 < 10 ^ k' := by
        rw [Nat.div_lt_iff_lt_mul (by norm_num)]
        calc n < 10 ^ (k' + 1) := h
          _ = 10 ^ k' * 10 := by ring
      have ih := decDigitsRev_length fuel (n / 10) k' hdiv
      simp only [List.length_cons]
      omega

theorem decDigitsRev_lt_ten : ∀ fuel n : Nat, ∀ d ∈ decDigitsRev fuel n, d < 10
  | 0, n => by simp [decDigitsRev]
  | fuel + 1, n => by
    by_cases h0 : n = 0
    · simp [decDigitsRev, h0]
    · rw [decDigitsRev, if_neg h0]
      intro d hd
      rcases List.mem_cons.mp hd with rfl | hd
      · exact Nat.mod_lt n (by norm_num)
      · exact decDigitsRev_lt_ten fuel (n / 10) d hd

theorem digitChar_isDigit (d : Nat) (hd : d < 10) : (digitChar d).isDigit = true := by
  interval_cases d <;> decide

theorem natToDecimal_length_le (n k : Nat) (hk : 1 ≤ k) (h : n < 10 ^ k) :
    (natToDecimal n).length ≤ k := by
  by_cases h0 : n = 0
  · subst h0
    simp [natToDecimal]
    omega
  · rw [natToDecimal, if_neg h0]
    simp only [List.length_map, List.length_reverse]
    exact decDigitsRev_length n n k h

theorem natToDecimal_digits (n : Nat) : ∀ c ∈ natToDecimal n, c.isDigit = true := by
  by_cases h0 : n = 0
  · intro c hc
    simp [natToDecimal, h0] at hc
    subst hc
    decide
  · rw [natToDecimal, if_neg h0]
    intro c hc
    simp only [List.mem_map, List.mem_reverse] at hc
    obtain ⟨d, hd, rfl⟩ := hc
    exact digitChar_isDigit d (decDigitsRev_lt_ten n n d hd)

theorem pad13_length (n : Nat) (h : n < 10 ^ 13) : (pad13 n).length = 13 := by
  have hle := natToDecimal_length_le n 13 (by norm_num) h
  simp only [pad13, List.length_append, List.length_replicate]
  omega

theorem pad13_digits (n : Nat) : ∀ c ∈ pad13 n, c.isDigit = true := by
  intro c hc
  rcases List.mem_append.mp hc with hc | hc
  · have hc0 : c = '0' := List.eq_of_mem_replicate hc
    subst hc0
    decide
  · exact natToDecimal_digits n c hc

/-! ## Claim theorems -/

/-- **C1** (corrected). Session blackout: while the transfer session is active,
every chunk the output pump reads is appended whole to the session's receive
queue and none of it is written to the local terminal; when no session is
active and no trigger matches, the chunk is written verbatim *provided* the
interrupting flag is clear and drag-file suppression is not armed (the claim
as stated omitted those two suppression branches of `wrapOutput`). -/
theorem C1_session_blackout (tv : List Char → List Char) (dragFile : Bool)
    (st : ClientState) (buf : List Char) :
    (st.transferActive = true →
      (wrapOutputStep tv dragFile st buf).toQueue = buf ∧
      (wrapOutputStep tv dragFile st buf).toTerminal = []) ∧
    (st.transferActive = false → detectTrzsz buf = none → st.interrupting = false →
      (dragFile = false ∨ st.dragPending = false) →
      (wrapOutputStep tv dragFile st buf).toTerminal = buf ∧
      (wrapOutputStep tv dragFile st buf).toQueue = []) := by
  constructor
  · intro h
    simp [wrapOutputStep, h]
  · intro h hdet hint hdrag
    have hd : (dragFile && st.dragPending) = false := by
      rcases hdrag with h1 | h1 <;> simp [h1]
    simp [wrapOutputStep, h, hdet, hint, hd]

/-- Witness for C1 at a concrete input: an active session swallows `"ab"`
into the queue and writes nothing. -/
theorem C1_session_blackout_witness :
    (wrapOutputStep (fun l => l) false ⟨true, false, false⟩ "ab".toList).toQueue = "ab".toList ∧
    (wrapOutputStep (fun l => l) false ⟨true, false, false⟩ "ab".toList).toTerminal = [] :=
  (C1_session_blackout (fun l => l) false ⟨true, false, false⟩ "ab".toList).1 rfl

/-- **C1** counterexample to the claim as stated: no session is active and no
trigger matches in `"hello"`, yet with `gInterrupting` set the chunk is
swallowed instead of being written verbatim. -/
theorem C1_counterexample :
    detectTrzsz "hello".toList = none ∧
    (wrapOutputStep (fun l => l) false ⟨false, true, false⟩ "hello".toList).toTerminal = [] ∧
    (wrapOutputStep (fun l => l) false ⟨false, true, false⟩ "hello".toList).toTerminal ≠
      "hello".toList := by
  refine ⟨rfl, rfl, ?_⟩
  decide

/-- **C2** (confirmed). Trigger detection: `detectTrzsz` reports a trigger iff
the buffer contains a match of `::TRZSZ:TRANSFER:([SR]):(\d+\.\d+\.\d+)(:\d+)?`;
when it does, the reported direction byte is the captured `S` or `R` of the
leftmost greedy match and the platform hint is true exactly when that match's
optional trailing flag group is `:1`; with no match nothing is reported. -/
theorem C2_trigger_detection (s : List Char) :
    ((detectTrzsz s).isSome = true ↔ ContainsTrigger s) ∧
    (∀ m b, detectTrzsz s = some (m, b) →
      ∃ pre v1 v2 v3 flag rest, GoRegexMatch s pre m v1 v2 v3 flag rest ∧
        (b = true ↔ flag = [':', '1'])) :=
  ⟨detectTrzsz_isSome_iff s, fun m b hd => detectTrzsz_some_goMatch s m b hd⟩

/-- Witness for C2 at a concrete buffer containing `::TRZSZ:TRANSFER:R:1.2.3:1`. -/
theorem C2_trigger_detection_witness :
    ∃ pre v1 v2 v3 flag rest,
      GoRegexMatch "x::TRZSZ:TRANSFER:R:1.2.3:1y".toList pre 'R' v1 v2 v3 flag rest ∧
      (true = true ↔ flag = [':', '1']) :=
  (C2_trigger_detection "x::TRZSZ:TRANSFER:R:1.2.3:1y".toList).2 'R' true rfl

/-- **C3** (corrected). Compatibility echo: on the chunk where the trigger is
detected, the client writes — before the session consumes any output bytes —
the chunk with its *leftmost* occurrence of `TRZSZ` replaced by `TRZSZGO`
(exactly one replacement); that occurrence is the marker's own `TRZSZ`
whenever no earlier occurrence of `TRZSZ` precedes it in the chunk (the claim
as stated asserted the marker's occurrence is always the one rewritten). -/
theorem C3_compat_echo (tv : List Char → List Char) (dragFile : Bool)
    (st : ClientState) (buf : List Char) (m : Char) (w : Bool)
    (hact : st.transferActive = false) (hdet : detectTrzsz buf = some (m, w)) :
    (wrapOutputStep tv dragFile st buf).toTerminal =
      bytesReplaceOnce "TRZSZ".toList "TRZSZGO".toList buf ∧
    (wrapOutputStep tv dragFile st buf).toQueue = [] ∧
    (wrapOutputStep tv dragFile st buf).next.transferActive = true ∧
    (∃ i, occursAt buf i "TRZSZ".toList ∧ (∀ j < i, ¬ occursAt buf j "TRZSZ".toList) ∧
      (wrapOutputStep tv dragFile st buf).toTerminal =
        buf.take i ++ "TRZSZGO".toList ++ buf.drop (i + 5)) ∧
    (∀ pre dir v1 v2 v3 flag rest, GoRegexMatch buf pre dir v1 v2 v3 flag rest →
      (∀ j < pre.length + 2, ¬ occursAt buf j "TRZSZ".toList) →
      (wrapOutputStep tv dragFile st buf).toTerminal =
        buf.take (pre.length + 2) ++ "TRZSZGO".toList ++ buf.drop (pre.length + 2 + 5)) := by
  have hstep : (wrapOutputStep tv dragFile st buf).toTerminal =
      bytesReplaceOnce "TRZSZ".toList "TRZSZGO".toList buf ∧
      (wrapOutputStep tv dragFile st buf).toQueue = [] ∧
      (wrapOutputStep tv dragFile st buf).next.transferActive = true := by
    refine ⟨?_, ?_, ?_⟩ <;> simp [wrapOutputStep, hact, hdet]
  obtain ⟨pre0, v1, v2, v3, flag, rest, hgm, _⟩ := detectTrzsz_some_goMatch buf m w hdet
  have hoccur : occursAt buf (pre0.length + 2) "TRZSZ".toList :=
    occursAt_marker buf pre0 m v1 v2 v3 flag rest hgm.1
  have hpat : "TRZSZ".toList ≠ [] := by decide
  haveI hdec : DecidablePred (fun i => occursAt buf i "TRZSZ".toList) := fun i => by
    unfold occursAt
    infer_instance
  have hex : ∃ i, occursAt buf i "TRZSZ".toList := ⟨pre0.length + 2, hoccur⟩
  refine ⟨hstep.1, hstep.2.1, hstep.2.2, ⟨Nat.find hex, Nat.find_spec hex, ?_, ?_⟩, ?_⟩
  · intro j hj
    exact Nat.find_min hex hj
  · rw [hstep.1]
    have h5 : ("TRZSZ".toList).length = 5 := by decide
    rw [← h5]
    exact bytesReplaceOnce_at _ _ hpat buf (Nat.find hex) (Nat.find_spec hex)
      (fun j hj => Nat.find_min hex hj)
  · intro pre dir w1 w2 w3 flag2 rest2 hgm2 hmin
    rw [hstep.1]
    have h5 : ("TRZSZ".toList).length = 5 := by decide
    have hocc2 : occursAt buf (pre.length + 2) "TRZSZ".toList :=
      occursAt_marker buf pre dir w1 w2 w3 flag2 rest2 hgm2.1
    rw [← h5]
    exact bytesReplaceOnce_at _ _ hpat buf (pre.length + 2) hocc2 hmin

/-- Witness for C3 at a concrete chunk whose only `TRZSZ` is the marker's. -/
theorem C3_compat_echo_witness :
    (wrapOutputStep (fun l => l) false ⟨false, false, false⟩
        "::TRZSZ:TRANSFER:S:1.0.0".toList).toTerminal =
      bytesReplaceOnce "TRZSZ".toList "TRZSZGO".toList "::TRZSZ:TRANSFER:S:1.0.0".toList ∧
    (wrapOutputStep (fun l => l) false ⟨false, false, false⟩
        "::TRZSZ:TRANSFER:S:1.0.0".toList).toQueue = [] :=
  have h := C3_compat_echo (fun l => l) false ⟨false, false, false⟩
    "::TRZSZ:TRANSFER:S:1.0.0".toList 'S' false rfl rfl
  ⟨h.1, h.2.1⟩

/-- **C3** counterexample to the claim as stated: in a chunk where a stray
`TRZSZ` precedes the marker, the trigger is detected but the client rewrites
the stray occurrence, leaving the marker's `TRZSZ` intact. -/
theorem C3_counterexample :
    (detectTrzsz "TRZSZ!::TRZSZ:TRANSFER:S:1.0.0".toList).isSome = true ∧
    (wrapOutputStep (fun l => l) false ⟨false, false, false⟩
        "TRZSZ!::TRZSZ:TRANSFER:S:1.0.0".toList).toTerminal =
      "TRZSZGO!::TRZSZ:TRANSFER:S:1.0.0".toList ∧
    "TRZSZGO!::TRZSZ:TRANSFER:S:1.0.0".toList ≠
      "TRZSZ!::TRZSZGO:TRANSFER:S:1.0.0".toList := by
  refine ⟨rfl, rfl, ?_⟩
  decide

/-- **C6** (corrected). Interrupt routing: on an interrupt signal, the wrapper
invokes the active session's `stopTransferringFiles`; when no session is
active the signal handler does nothing — the interrupt is *not* forwarded to
the child by the handler (in raw mode the `0x03` keystroke reaches the child
through the input pump instead, so the claim's "forward as a keystroke"
describes a different code path). -/
theorem C6_interrupt_routing (transferActive : Bool) :
    handleSigint transferActive =
      (if transferActive then SigintAction.stopTransfer else SigintAction.ignore) := rfl

/-- **C6** counterexample to the claim as stated: with no active transfer the
handler ignores the signal rather than forwarding it to the child. -/
theorem C6_counterexample :
    handleSigint false = SigintAction.ignore ∧
    SigintAction.ignore ≠ SigintAction.forwardToChild := by
  refine ⟨rfl, ?_⟩
  decide

/-- **C9** (confirmed). Input suppression during transfer: while a session is
active, no byte of an input chunk is forwarded to the child PTY, the state is
unchanged, and `stopTransferringFiles` is invoked exactly when the chunk's
first byte is `0x03`. -/
theorem C9_input_suppression (detectDrag : List Char → Option (List String × Bool))
    (dragFile : Bool) (st : ClientState) (buf : List Char)
    (hact : st.transferActive = true) (hne : buf ≠ []) :
    (wrapInputStep detectDrag dragFile st buf).toPty = [] ∧
    ((wrapInputStep detectDrag dragFile st buf).stopCalled = true ↔
      buf.head? = some '\x03') ∧
    (wrapInputStep detectDrag dragFile st buf).next = st := by
  rcases buf with _ | ⟨c, cs⟩
  · exact absurd rfl hne
  · refine ⟨by simp [wrapInputStep, hact], ?_, by simp [wrapInputStep, hact]⟩
    simp [wrapInputStep, hact, List.head?]

/-- Witness for C9: a chunk beginning with `0x03` forwards nothing and stops
the transfer. -/
theorem C9_input_suppression_witness :
    (wrapInputStep (fun _ => none) false ⟨true, false, false⟩ ['\x03']).toPty = [] ∧
    ((wrapInputStep (fun _ => none) false ⟨true, false, false⟩ ['\x03']).stopCalled = true ↔
      (['\x03'] : List Char).head? = some '\x03') ∧
    (wrapInputStep (fun _ => none) false ⟨true, false, false⟩ ['\x03']).next =
      ⟨true, false, false⟩ :=
  C9_input_suppression (fun _ => none) false ⟨true, false, false⟩ ['\x03'] rfl (by decide)

/-- **C10** (confirmed). Config lookup: `getTrzszConfig` returns the trimmed
value of the first `~/.trzsz.conf` line whose trimmed key equals the name; it
returns `none` when the home directory is unknown, the file is missing, no
line matches, or the first matching line's value trims to empty — and whenever
it returns `none`, `chooseDownloadPath` invokes the GUI picker. -/
theorem C10_config_lookup (name : List Char) :
    (∀ conf, getTrzszConfig name false conf = none) ∧
    getTrzszConfig name true none = none ∧
    (∀ lines, (∀ line ∈ lines, ¬ LineMatches name line) →
      getTrzszConfig name true (some lines) = none) ∧
    (∀ pre line post k v, (∀ l ∈ pre, ¬ LineMatches name l) →
      splitFirstEq line = some (k, v) → trimSpace k = name →
      getTrzszConfig name true (some (pre ++ line :: post)) =
        (if trimSpace v = [] then none else some (trimSpace v))) ∧
    (∀ homeKnown conf picker,
      getTrzszConfig "DefaultDownloadPath".toList homeKnown conf = none →
      (chooseDownloadPath homeKnown conf picker).1 = true) := by
  refine ⟨fun conf => rfl, rfl, ?_, ?_, ?_⟩
  · intro lines hno
    simp [getTrzszConfig, lookupConfLines_of_no_match name lines hno]
  · intro pre line post k v hpre hsp hk
    simp [getTrzszConfig, lookupConfLines_first name pre line post k v hpre hsp hk]
  · intro homeKnown conf picker hnone
    unfold chooseDownloadPath
    rw [hnone]

/-- Witness for C10: a present-but-empty `DefaultDownloadPath` key yields
`none` and the picker is still invoked. -/
theorem C10_config_lookup_witness :
    getTrzszConfig "DefaultDownloadPath".toList true
      (some ["DefaultDownloadPath=".toList]) = none ∧
    (chooseDownloadPath true (some ["DefaultDownloadPath=".toList])
      (some "/tmp".toList)).1 = true := by
  have h := C10_config_lookup "DefaultDownloadPath".toList
  have h4 := h.2.2.2.1 [] "DefaultDownloadPath=".toList [] "DefaultDownloadPath".toList []
    (by simp) (by decide) (by decide)
  have hcfg : getTrzszConfig "DefaultDownloadPath".toList true
      (some ["DefaultDownloadPath=".toList]) = none := by
    simpa using h4
  exact ⟨hcfg, h.2.2.2.2 true _ (some "/tmp".toList) hcfg⟩

/-- **C4** (confirmed). Binary-mode downgrade: in a run that reaches the config
exchange, the CFG frame the sender emits carries binary framing exactly when
binary was requested on the command line, the peer's ACT reports
`support_binary`, the multiplexer is not in control mode, and the platform is
not Windows; in all other cases the run proceeds in text mode with exit code
`0` and no error. -/
theorem C4_binary_downgrade (version : String) (files : List TrzszFile) (args : TszArgs)
    (tmuxMode : TmuxMode) (isWin : Bool) (cols : Int) (ms : Nat)
    (act : TransferAction) (exitMsg : String)
    (hconfirm : act.confirm = true)
    (hdirOk : args.directory = true → act.supportDirectory = true)
    (hdup : args.overwrite = true → checkDuplicateNames files = false) :
    (tszMain version (some files) args (some tmuxMode) isWin cols true ms
        (some act) (some exitMsg)).frames =
      [ServerEvent.configFrame
        (args.binary && act.supportBinary && !(tmuxMode == TmuxMode.tmuxControlMode) && !isWin)
        args.directory args.overwrite,
       ServerEvent.fileData files, ServerEvent.exitFrame exitMsg] ∧
    (tszMain version (some files) args (some tmuxMode) isWin cols true ms
        (some act) (some exitMsg)).exitCode = 0 ∧
    (tszMain version (some files) args (some tmuxMode) isWin cols true ms
        (some act) (some exitMsg)).errMsg = none := by
  have hov : (args.overwrite && checkDuplicateNames files) = false := by
    cases ho : args.overwrite with
    | false => simp
    | true => simp [hdup ho]
  have hdir : (args.directory && !act.supportDirectory) = false := by
    cases hd : args.directory with
    | false => simp
    | true => simp [hdirOk hd]
  rcases act with ⟨cf, sb, sd⟩
  simp only at hconfirm
  subst hconfirm
  rcases args with ⟨ab, ad, ao⟩
  cases ab <;> cases sb <;> cases sd <;> cases ad <;> cases ao <;> cases isWin <;>
    cases tmuxMode <;> simp_all [tszMain, sendFiles]

/-- Witness for C4: binary requested but the peer lacks `support_binary`, so
the emitted CFG frame carries text mode and the run exits cleanly. -/
theorem C4_binary_downgrade_witness :
    (tszMain "1.0.0" (some []) ⟨true, false, false⟩ (some TmuxMode.noTmux) false 80 true 0
        (some ⟨true, false, true⟩) (some "done")).frames =
      [ServerEvent.configFrame false false false,
       ServerEvent.fileData [], ServerEvent.exitFrame "done"] ∧
    (tszMain "1.0.0" (some []) ⟨true, false, false⟩ (some TmuxMode.noTmux) false 80 true 0
        (some ⟨true, false, true⟩) (some "done")).exitCode = 0 ∧
    (tszMain "1.0.0" (some []) ⟨true, false, false⟩ (some TmuxMode.noTmux) false 80 true 0
        (some ⟨true, false, true⟩) (some "done")).errMsg = none :=
  C4_binary_downgrade "1.0.0" [] ⟨true, false, false⟩ TmuxMode.noTmux false 80 0
    ⟨true, false, true⟩ "done" rfl (by intro h; exact absurd h (by decide)) (by simp)

/-- **C5** (confirmed). Handshake refusal: when the received ACT frame has
`confirm = false`, `sendFiles` emits exactly `EXIT("Cancelled")` — no CFG
frame, no file data — returns no error, and the whole run exits with `0`. -/
theorem C5_handshake_refusal (act : TransferAction) (files : List TrzszFile)
    (args : TszArgs) (exitMsgRecv : Option String) (hconfirm : act.confirm = false) :
    sendFiles (some act) files args exitMsgRecv =
      ([ServerEvent.exitFrame "Cancelled"], none) ∧
    (∀ b d o, ServerEvent.configFrame b d o ∉ (sendFiles (some act) files args exitMsgRecv).1) ∧
    (∀ fs, ServerEvent.fileData fs ∉ (sendFiles (some act) files args exitMsgRecv).1) ∧
    (∀ version tmuxMode isWin cols ms,
      (args.overwrite = true → checkDuplicateNames files = false) →
      (tszMain version (some files) args (some tmuxMode) isWin cols true ms
        (some act) exitMsgRecv).exitCode = 0) := by
  have h1 : ∀ a : TszArgs, sendFiles (some act) files a exitMsgRecv =
      ([ServerEvent.exitFrame "Cancelled"], none) := by
    intro a
    simp [sendFiles, hconfirm]
  refine ⟨h1 args, ?_, ?_, ?_⟩
  · intro b d o
    rw [h1 args]
    simp
  · intro fs
    rw [h1 args]
    simp
  · intro version tmuxMode isWin cols ms hdup
    have hov : (args.overwrite && checkDuplicateNames files) = false := by
      cases ho : args.overwrite with
      | false => simp
      | true => simp [hdup ho]
    simp [tszMain, hov, h1]

/-- Witness for C5 at a concrete refused handshake. -/
theorem C5_handshake_refusal_witness :
    sendFiles (some ⟨false, true, true⟩) [] ⟨false, false, false⟩ (some "m") =
      ([ServerEvent.exitFrame "Cancelled"], none) ∧
    (∀ b d o, ServerEvent.configFrame b d o ∉
      (sendFiles (some ⟨false, true, true⟩) [] ⟨false, false, false⟩ (some "m")).1) ∧
    (∀ fs, ServerEvent.fileData fs ∉
      (sendFiles (some ⟨false, true, true⟩) [] ⟨false, false, false⟩ (some "m")).1) ∧
    (∀ version tmuxMode isWin cols ms,
      ((⟨false, false, false⟩ : TszArgs).overwrite = true →
        checkDuplicateNames ([] : List TrzszFile) = false) →
      (tszMain version (some []) ⟨false, false, false⟩ (some tmuxMode) isWin cols true ms
        (some ⟨false, true, true⟩) (some "m")).exitCode = 0) :=
  C5_handshake_refusal ⟨false, true, true⟩ [] ⟨false, false, false⟩ (some "m") rfl

/-- **C7** (corrected). Duplicate-name check: the sender aborts with exit code
`-2` before any transfer begins when two input FileRecords share a display
name *and overwrite was requested*; without `-y`/overwrite the duplicate check
is skipped entirely (the claim as stated required the abort on every
invocation). -/
theorem C7_duplicate_names (version : String) (files : List TrzszFile) (args : TszArgs)
    (tmuxResult : Option TmuxMode) (isWin : Bool) (cols : Int) (rawOk : Bool) (ms : Nat)
    (action : Option TransferAction) (exitMsgRecv : Option String)
    (hover : args.overwrite = true) (hdup : checkDuplicateNames files = true) :
    tszMain version (some files) args tmuxResult isWin cols rawOk ms action exitMsgRecv =
      ⟨-2, [], [], some "duplicate name"⟩ := by
  simp [tszMain, hover, hdup]

/-- Witness for C7: duplicate display names with overwrite requested abort
with `-2` and emit nothing. -/
theorem C7_duplicate_names_witness :
    tszMain "1.0.0" (some [⟨"a.txt", false⟩, ⟨"a.txt", false⟩]) ⟨false, false, true⟩
      (some TmuxMode.noTmux) false 80 true 0 (some ⟨true, true, true⟩) (some "done") =
      ⟨-2, [], [], some "duplicate name"⟩ :=
  C7_duplicate_names "1.0.0" [⟨"a.txt", false⟩, ⟨"a.txt", false⟩] ⟨false, false, true⟩
    (some TmuxMode.noTmux) false 80 true 0 (some ⟨true, true, true⟩) (some "done")
    rfl (by decide)

/-- **C7** counterexample to the claim as stated: two files share the display
name `a.txt` but overwrite was not requested; the sender does not exit with
`-2` — it proceeds, emits the trigger marker, and finishes with exit code `0`. -/
theorem C7_counterexample :
    checkDuplicateNames [⟨"a.txt", false⟩, ⟨"a.txt", false⟩] = true ∧
    (tszMain "1.0.0" (some [⟨"a.txt", false⟩, ⟨"a.txt", false⟩]) ⟨false, false, false⟩
      (some TmuxMode.noTmux) false 80 true 0 (some ⟨true, true, true⟩)
      (some "done")).exitCode = 0 ∧
    (0 : Int) ≠ -2 ∧
    StdoutLine.marker "\x1b7\x07::TRZSZ:TRANSFER:S:1.0.0:0000000000000\r\n" ∈
      (tszMain "1.0.0" (some [⟨"a.txt", false⟩, ⟨"a.txt", false⟩]) ⟨false, false, false⟩
        (some TmuxMode.noTmux) false 80 true 0 (some ⟨true, true, true⟩)
        (some "done")).stdout := by
  refine ⟨rfl, rfl, by decide, ?_⟩
  decide

/-- **C8** (confirmed). Trigger marker format: every run that reaches the
marker emission writes the line `\x1b7\x07::TRZSZ:TRANSFER:S:<version>:<id>\r\n`
with mode byte `S`, where the id is `(ms mod 10^11) * 100` plus a platform
offset of `0`, `10` or `20`; that value is below `10^13`, so the `%013d`
rendering is exactly 13 decimal digits. -/
theorem C8_marker_format (version : String) (files : List TrzszFile) (args : TszArgs)
    (tmuxMode : TmuxMode) (isWin : Bool) (cols : Int) (rawOk : Bool) (ms : Nat)
    (action : Option TransferAction) (exitMsgRecv : Option String)
    (hdup : args.overwrite = true → checkDuplicateNames files = false) :
    ∃ off, (off = 0 ∨ off = 10 ∨ off = 20) ∧
      uniqueIdBase ms + off < 10 ^ 13 ∧
      (pad13 (uniqueIdBase ms + off)).length = 13 ∧
      (∀ c ∈ pad13 (uniqueIdBase ms + off), c.isDigit = true) ∧
      StdoutLine.marker ("\x1b7\x07::TRZSZ:TRANSFER:S:" ++ version ++ ":" ++
          String.mk (pad13 (uniqueIdBase ms + off)) ++ "\r\n") ∈
        (tszMain version (some files) args (some tmuxMode) isWin cols rawOk ms
          action exitMsgRecv).stdout := by
  have hov : (args.overwrite && checkDuplicateNames files) = false := by
    cases ho : args.overwrite with
    | false => simp
    | true => simp [hdup ho]
  have hbound : ∀ off : Nat, off ≤ 20 → uniqueIdBase ms + off < 10 ^ 13 := by
    intro off hoff
    have h1 : ms % 100000000000 < 100000000000 := Nat.mod_lt _ (by norm_num)
    have h13 : (10 : Nat) ^ 13 = 10000000000000 := by norm_num
    unfold uniqueIdBase
    omega
  cases isWin with
  | true =>
    refine ⟨10, by simp, hbound 10 (by norm_num), pad13_length _ (hbound 10 (by norm_num)),
      pad13_digits _, ?_⟩
    cases rawOk <;> simp [tszMain, hov]
  | false =>
    cases tmuxMode with
    | noTmux =>
      refine ⟨0, by simp, hbound 0 (by norm_num), pad13_length _ (hbound 0 (by norm_num)),
        pad13_digits _, ?_⟩
      cases rawOk <;> simp [tszMain, hov]
    | tmuxNormalMode =>
      refine ⟨20, by simp, hbound 20 (by norm_num), pad13_length _ (hbound 20 (by norm_num)),
        pad13_digits _, ?_⟩
      cases rawOk <;> simp [tszMain, hov]
    | tmuxControlMode =>
      refine ⟨0, by simp, hbound 0 (by norm_num), pad13_length _ (hbound 0 (by norm_num)),
        pad13_digits _, ?_⟩
      cases rawOk <;> simp [tszMain, hov]

/-- Witness for C8 at a concrete run. -/
theorem C8_marker_format_witness :
    ∃ off, (off = 0 ∨ off = 10 ∨ off = 20) ∧
      uniqueIdBase 1700000000123 + off < 10 ^ 13 ∧
      (pad13 (uniqueIdBase 1700000000123 + off)).length = 13 ∧
      (∀ c ∈ pad13 (uniqueIdBase 1700000000123 + off), c.isDigit = true) ∧
      StdoutLine.marker ("\x1b7\x07::TRZSZ:TRANSFER:S:" ++ "1.0.0" ++ ":" ++
          String.mk (pad13 (uniqueIdBase 1700000000123 + off)) ++ "\r\n") ∈
        (tszMain "1.0.0" (some []) ⟨false, false, false⟩ (some TmuxMode.noTmux) false 80
          true 1700000000123 (some ⟨true, true, true⟩) (some "done")).stdout :=
  C8_marker_format "1.0.0" [] ⟨false, false, false⟩ TmuxMode.noTmux false 80 true
    1700000000123 (some ⟨true, true, true⟩) (some "done") (by simp)

end Trzsz
